import Mathlib

/-!
Verification of `roster-to-qti-results` (src/cli.ts) against its design
specification.  The TypeScript source is shallowly embedded: strings are
modelled as `String`/`List Char`, fallible functions return `Except String`,
and the filesystem side effects of the write phase are modelled by explicit
state passing over an `FsState` record.  Every definition is translated from
the source; definitions that model library/host behaviour the source calls
(csv-parse, `Date.parse`, `path.join`, `fs`) say so in their doc comments.
-/

namespace RosterToQti

/-! ## Basic character/list utilities shared by the embedding -/

/-- The apostrophe character, written via its code point. -/
def apos : Char := Char.ofNat 39

/-- Whitespace as trimmed by JavaScript `String.prototype.trim` and by
csv-parse's `trim: true` option.  Modelled for the ASCII whitespace
characters (JS additionally trims Unicode space characters, which no claim
exercises). -/
def isSpaceChar (c : Char) : Bool :=
  c = ' ' || c = '\t' || c = '\n' || c = '\r' || c = Char.ofNat 11 || c = Char.ofNat 12

/-- Drop trailing characters satisfying `isSpaceChar`. -/
def dropTrailSp (l : List Char) : List Char :=
  (l.reverse.dropWhile isSpaceChar).reverse

/-- JavaScript `"…".trim()` on a character list. -/
def trimL (l : List Char) : List Char :=
  dropTrailSp (l.dropWhile isSpaceChar)

/-- JavaScript `"…".trim()` at the `String` level. -/
def jsTrim (s : String) : String := ⟨trimL s.data⟩

/-- `p` is a prefix of `s` (Boolean, decidable and kernel-computable). -/
def isPre : List Char → List Char → Bool
  | [], _ => true
  | _ :: _, [] => false
  | a :: p, b :: s => a == b && isPre p s

/-- `p` occurs as a contiguous substring of `s` (Boolean). -/
def occursB (p : List Char) : List Char → Bool
  | [] => isPre p []
  | c :: s => isPre p (c :: s) || occursB p s

/-- Digit character of a single decimal digit, as produced by JavaScript
number-to-string conversion. -/
def digitChar : Nat → Char
  | 0 => '0' | 1 => '1' | 2 => '2' | 3 => '3' | 4 => '4'
  | 5 => '5' | 6 => '6' | 7 => '7' | 8 => '8' | _ => '9'

/-- Decimal digits, fuel-based so that the definition reduces by kernel
computation (the fuel `n + 1` always suffices since `n / 10 < n`). -/
def natCharsAux : Nat → Nat → List Char
  | 0, _ => []
  | fuel + 1, n =>
    if n < 10 then [digitChar n]
    else natCharsAux fuel (n / 10) ++ [digitChar (n % 10)]

/-- Decimal digits of `n`, most significant first (JavaScript `${n}` for a
non-negative integer). -/
def natChars (n : Nat) : List Char := natCharsAux (n + 1) n

/-- JavaScript `${n}` for a natural number. -/
def natStr (n : Nat) : String := ⟨natChars n⟩

/-- Split a character list at every occurrence of the character `c`. -/
def splitOnChar (c : Char) : List Char → List (List Char)
  | [] => [[]]
  | x :: rest =>
    match splitOnChar c rest with
    | [] => [[]]
    | g :: gs => if x = c then [] :: g :: gs else (x :: g) :: gs

/-! ### Lemmas about `isPre` and `occursB` -/

theorem isPre_self_append (p t : List Char) : isPre p (p ++ t) = true := by
  induction p with
  | nil => rfl
  | cons a p ih => simp [isPre, ih]

theorem isPre_length {p t : List Char} (h : isPre p t = true) : p.length ≤ t.length := by
  induction p generalizing t with
  | nil => simp
  | cons a p ih =>
    cases t with
    | nil => simp [isPre] at h
    | cons b s =>
      simp only [isPre, Bool.and_eq_true] at h
      have := ih h.2
      simpa [Nat.succ_le_succ_iff] using this

theorem occursB_length {p s : List Char} (h : occursB p s = true) : p.length ≤ s.length := by
  induction s with
  | nil => exact isPre_length h
  | cons c s ih =>
    simp only [occursB, Bool.or_eq_true] at h
    rcases h with h | h
    · exact isPre_length h
    · exact Nat.le_trans (ih h) (by simp)

theorem occursB_of_parts (p a b : List Char) : occursB p (a ++ p ++ b) = true := by
  induction a with
  | nil =>
    cases hpb : p ++ b with
    | nil =>
      have hp : p = [] := by
        cases p with
        | nil => rfl
        | cons c t => simp at hpb
      subst hp
      have hb : b = [] := by simpa using hpb
      subst hb
      rfl
    | cons c t =>
      simp only [List.nil_append, hpb, occursB]
      rw [← hpb]
      simp [isPre_self_append]
  | cons x a ih =>
    simp only [List.cons_append, occursB, Bool.or_eq_true]
    right
    exact ih

theorem occursB_nil_of_ne {p : List Char} (hp : p ≠ []) : occursB p [] = false := by
  cases p with
  | nil => simp at hp
  | cons a p => rfl

theorem isPre_cons_false {d : Char} {p : List Char} {c : Char} (hdc : d ≠ c)
    (t : List Char) : isPre (d :: p) (c :: t) = false := by
  have : (d == c) = false := by simp [hdc]
  simp [isPre, this]

/-- A prefix test cannot look past an excluded character that closes `x`:
if `c` does not occur in `p` then matching `p` against `x ++ [c] ++ y`
is the same as matching it against `x ++ [c]`. -/
theorem isPre_stop_right {p : List Char} (c : Char) (hc : c ∉ p) (x y : List Char) :
    isPre p (x ++ [c] ++ y) = isPre p (x ++ [c]) := by
  induction x generalizing p with
  | nil =>
    cases p with
    | nil => rfl
    | cons d p =>
      have hdc : d ≠ c := fun h => hc (h ▸ List.mem_cons_self d p)
      simp only [List.nil_append, List.singleton_append]
      rw [isPre_cons_false hdc, isPre_cons_false hdc]
  | cons a x ih =>
    cases p with
    | nil => rfl
    | cons d p =>
      have hcp : c ∉ p := fun h => hc (List.mem_cons_of_mem _ h)
      have h1 : (a :: x) ++ [c] ++ y = a :: (x ++ [c] ++ y) := by simp
      have h2 : (a :: x) ++ [c] = a :: (x ++ [c]) := by simp
      rw [h1, h2]
      show (d == a && isPre p (x ++ [c] ++ y)) = (d == a && isPre p (x ++ [c]))
      rw [ih hcp]

/-- A prefix test cannot enter a region opened by an excluded character:
if `c ∉ p` then matching `p` against `x ++ c :: y` is the same as
matching it against `x` alone. -/
theorem isPre_stop_left {p : List Char} (c : Char) (hc : c ∉ p) (x y : List Char) :
    isPre p (x ++ c :: y) = isPre p x := by
  induction x generalizing p with
  | nil =>
    cases p with
    | nil => rfl
    | cons d p =>
      have hdc : d ≠ c := fun h => hc (h ▸ List.mem_cons_self d p)
      simp only [List.nil_append]
      rw [isPre_cons_false hdc]
      rfl
  | cons a x ih =>
    cases p with
    | nil => rfl
    | cons d p =>
      have hcp : c ∉ p := fun h => hc (List.mem_cons_of_mem _ h)
      have h1 : (a :: x) ++ c :: y = a :: (x ++ c :: y) := by simp
      rw [h1]
      show (d == a && isPre p (x ++ c :: y)) = (d == a && isPre p x)
      rw [ih hcp]

/-- An occurrence cannot cross a boundary character `c ∉ p`:
occurrences in `x ++ [c] ++ y` are occurrences in `x ++ [c]` or in `y`. -/
theorem occursB_split_right {p : List Char} (hp : p ≠ []) (c : Char) (hc : c ∉ p)
    (x y : List Char) :
    occursB p (x ++ [c] ++ y) = (occursB p (x ++ [c]) || occursB p y) := by
  induction x with
  | nil =>
    obtain ⟨d, p', rfl⟩ : ∃ d p', p = d :: p' := by
      cases p with
      | nil => simp at hp
      | cons d p' => exact ⟨d, p', rfl⟩
    have hdc : d ≠ c := fun h => hc (h ▸ List.mem_cons_self d p')
    simp only [List.nil_append, List.singleton_append]
    show (isPre (d :: p') (c :: y) || occursB (d :: p') y) =
      ((isPre (d :: p') [c] || occursB (d :: p') []) || occursB (d :: p') y)
    rw [isPre_cons_false hdc, isPre_cons_false hdc, occursB_nil_of_ne hp]
    simp
  | cons a x ih =>
    have h1 : (a :: x) ++ [c] ++ y = a :: (x ++ [c] ++ y) := by simp
    have h2 : (a :: x) ++ [c] = a :: (x ++ [c]) := by simp
    rw [h1, h2]
    show (isPre p (a :: (x ++ [c] ++ y)) || occursB p (x ++ [c] ++ y)) =
      ((isPre p (a :: (x ++ [c])) || occursB p (x ++ [c])) || occursB p y)
    have hI : isPre p (a :: (x ++ [c] ++ y)) = isPre p (a :: (x ++ [c])) := by
      have := isPre_stop_right (p := p) c hc (a :: x) y
      rw [h1, h2] at this
      exact this
    rw [hI, ih]
    simp [Bool.or_assoc]

/-- Symmetric splitting: occurrences in `x ++ c :: y` where `c ∉ p` are
occurrences in `x` or occurrences in `c :: y`. -/
theorem occursB_split_left {p : List Char} (hp : p ≠ []) (c : Char) (hc : c ∉ p)
    (x y : List Char) :
    occursB p (x ++ c :: y) = (occursB p x || occursB p (c :: y)) := by
  induction x with
  | nil =>
    simp only [List.nil_append]
    rw [occursB_nil_of_ne hp]
    simp
  | cons a x ih =>
    have h1 : (a :: x) ++ c :: y = a :: (x ++ c :: y) := by simp
    rw [h1]
    show (isPre p (a :: (x ++ c :: y)) || occursB p (x ++ c :: y)) =
      ((isPre p (a :: x) || occursB p x) || occursB p (c :: y))
    have hI : isPre p (a :: (x ++ c :: y)) = isPre p (a :: x) := by
      have := isPre_stop_left (p := p) c hc (a :: x) y
      rw [h1] at this
      exact this
    rw [hI, ih]
    simp [Bool.or_assoc]

theorem occursB_head_not {d : Char} {p : List Char} {s : List Char}
    (h : d ∉ s) : occursB (d :: p) s = false := by
  induction s with
  | nil => rfl
  | cons a t ih =>
    have hda : d ≠ a := fun he => h (he ▸ List.mem_cons_self a t)
    have hdt : d ∉ t := fun he => h (List.mem_cons_of_mem _ he)
    show (isPre (d :: p) (a :: t) || occursB (d :: p) t) = false
    rw [isPre_cons_false hda, ih hdt]
    rfl

/-! ### Trim idempotence -/

theorem dropWhile_fix (p : Char → Bool) (l : List Char) :
    List.dropWhile p (List.dropWhile p l) = List.dropWhile p l := by
  induction l with
  | nil => rfl
  | cons a t ih =>
    by_cases h : p a
    · simp [List.dropWhile_cons, h, ih]
    · simp [List.dropWhile_cons, h]

theorem dropWhile_decomp (p : Char → Bool) (l : List Char) :
    ∃ t, l = t ++ List.dropWhile p l := by
  induction l with
  | nil => exact ⟨[], rfl⟩
  | cons a t ih =>
    by_cases h : p a
    · obtain ⟨u, hu⟩ := ih
      refine ⟨a :: u, ?_⟩
      simp [List.dropWhile_cons, h]
      exact hu
    · exact ⟨[], by simp [List.dropWhile_cons, h]⟩

theorem dropWhile_head_false {p : Char → Bool} {l a t}
    (h : List.dropWhile p l = a :: t) : p a = false := by
  induction l with
  | nil => simp at h
  | cons b l ih =>
    by_cases hb : p b
    · rw [List.dropWhile_cons, if_pos hb] at h
      exact ih h
    · rw [List.dropWhile_cons, if_neg hb] at h
      cases h
      exact Bool.not_eq_true _ ▸ by simpa using hb

theorem dropWhile_of_head_false {p : Char → Bool} {a : Char} {t : List Char}
    (h : p a = false) : List.dropWhile p (a :: t) = a :: t := by
  simp [List.dropWhile_cons, h]

theorem trimL_idem (l : List Char) : trimL (trimL l) = trimL l := by
  set sp := isSpaceChar with hsp
  set m := List.dropWhile sp l with hm
  obtain ⟨u, hu⟩ := dropWhile_decomp sp m.reverse
  set d := List.dropWhile sp m.reverse with hd
  have htrim : trimL l = d.reverse := by
    simp [trimL, dropTrailSp, ← hm, ← hd]
  have hfix1 : List.dropWhile sp (trimL l) = trimL l := by
    rw [htrim]
    cases hdr : d.reverse with
    | nil => rfl
    | cons a s =>
      have hm_eq : m = d.reverse ++ u.reverse := by
        have := congrArg List.reverse hu
        simpa [List.reverse_append] using this
      have hhead : ∃ t', m = a :: t' := by
        refine ⟨s ++ u.reverse, ?_⟩
        rw [hm_eq, hdr]
        simp
      obtain ⟨t', ht'⟩ := hhead
      have hpa : sp a = false := dropWhile_head_false (ht' ▸ hm.symm)
      exact dropWhile_of_head_false hpa
  have hfix2 : dropTrailSp (trimL l) = trimL l := by
    rw [htrim]
    show ((d.reverse).reverse.dropWhile sp).reverse = d.reverse
    rw [List.reverse_reverse]
    have : List.dropWhile sp d = d := by
      rw [hd]
      exact dropWhile_fix sp m.reverse
    rw [this]
  show dropTrailSp (List.dropWhile sp (trimL l)) = trimL l
  rw [hfix1, hfix2]

theorem jsTrim_idem (s : String) : jsTrim (jsTrim s) = jsTrim s := by
  show (⟨trimL (trimL s.data)⟩ : String) = ⟨trimL s.data⟩
  rw [trimL_idem]

/-! ### Decimal digits -/

theorem digitChar_isDigit (n : Nat) : (digitChar n).isDigit = true := by
  rcases n with _|_|_|_|_|_|_|_|_|m
  · decide
  · decide
  · decide
  · decide
  · decide
  · decide
  · decide
  · decide
  · decide
  · show ('9').isDigit = true
    decide

theorem natCharsAux_digit (fuel : Nat) :
    ∀ n, ∀ c ∈ natCharsAux fuel n, c.isDigit = true := by
  induction fuel with
  | zero => intro n c hc; simp [natCharsAux] at hc
  | succ fuel ih =>
    intro n c hc
    unfold natCharsAux at hc
    split at hc
    · simp only [List.mem_singleton] at hc
      exact hc ▸ digitChar_isDigit n
    · rcases List.mem_append.mp hc with h | h
      · exact ih (n / 10) c h
      · simp only [List.mem_singleton] at h
        exact h ▸ digitChar_isDigit (n % 10)

theorem natChars_digit (n : Nat) : ∀ c ∈ natChars n, c.isDigit = true :=
  natCharsAux_digit (n + 1) n

theorem d_not_mem_natChars (n : Nat) : 'd' ∉ natChars n := by
  intro h
  have := natChars_digit n 'd' h
  simp [Char.isDigit] at this

/-! ## XML escaping (source: `escapeXml`, src/cli.ts) -/

/-- One global single-character replacement pass, the semantics of one
`value.replace(/c/g, r)` call in `escapeXml`. -/
def replaceAllC (c : Char) (r : List Char) : List Char → List Char
  | [] => []
  | x :: t => (if x = c then r else [x]) ++ replaceAllC c r t

/-- `escapeXml` from src/cli.ts: the five sequential global replacements
`&`→`&amp;`, `<`→`&lt;`, `>`→`&gt;`, `"`→`&quot;`, `'`→`&apos;`,
applied in source order (innermost first). -/
def escapeL (l : List Char) : List Char :=
  replaceAllC apos "&apos;".data
    (replaceAllC '"' "&quot;".data
      (replaceAllC '>' "&gt;".data
        (replaceAllC '<' "&lt;".data
          (replaceAllC '&' "&amp;".data l))))

/-- `escapeXml` at the `String` level. -/
def escapeXml (v : String) : String := ⟨escapeL v.data⟩

/-- Per-character escape table: what the five passes jointly do to one
input character. -/
def escChar (c : Char) : List Char :=
  if c = '&' then "&amp;".data
  else if c = '<' then "&lt;".data
  else if c = '>' then "&gt;".data
  else if c = '"' then "&quot;".data
  else if c = apos then "&apos;".data
  else [c]

/-- Character-wise form of the escaping function. -/
def escMap : List Char → List Char
  | [] => []
  | c :: t => escChar c ++ escMap t

theorem replaceAllC_append (c : Char) (r a b : List Char) :
    replaceAllC c r (a ++ b) = replaceAllC c r a ++ replaceAllC c r b := by
  induction a with
  | nil => rfl
  | cons x t ih => simp [replaceAllC, ih]

theorem escapeL_cons (c : Char) (t : List Char) :
    escapeL (c :: t) = escChar c ++ escapeL t := by
  by_cases h1 : c = '&'
  · subst h1; rfl
  by_cases h2 : c = '<'
  · subst h2; rfl
  by_cases h3 : c = '>'
  · subst h3; rfl
  by_cases h4 : c = '"'
  · subst h4; rfl
  by_cases h5 : c = apos
  · subst h5; rfl
  have hc : escChar c = [c] := by simp [escChar, h1, h2, h3, h4, h5]
  have s1 : replaceAllC '&' "&amp;".data (c :: t) =
      c :: replaceAllC '&' "&amp;".data t := by
    simp [replaceAllC, h1]
  have s2 : ∀ X, replaceAllC '<' "&lt;".data (c :: X) =
      c :: replaceAllC '<' "&lt;".data X := fun X => by simp [replaceAllC, h2]
  have s3 : ∀ X, replaceAllC '>' "&gt;".data (c :: X) =
      c :: replaceAllC '>' "&gt;".data X := fun X => by simp [replaceAllC, h3]
  have s4 : ∀ X, replaceAllC '"' "&quot;".data (c :: X) =
      c :: replaceAllC '"' "&quot;".data X := fun X => by simp [replaceAllC, h4]
  have s5 : ∀ X, replaceAllC apos "&apos;".data (c :: X) =
      c :: replaceAllC apos "&apos;".data X := fun X => by simp [replaceAllC, h5]
  rw [hc]
  show escapeL (c :: t) = c :: escapeL t
  unfold escapeL
  rw [s1, s2, s3, s4, s5]

theorem escapeL_eq_escMap (l : List Char) : escapeL l = escMap l := by
  induction l with
  | nil => rfl
  | cons c t ih => rw [escapeL_cons, ih]; rfl

/-- For a special character, the escape block starts with `&`. -/
theorem escChar_block (c : Char) :
    escChar c = [c] ∨ ∃ bl, escChar c = '&' :: bl := by
  by_cases h1 : c = '&'
  · subst h1; exact Or.inr ⟨"amp;".data, rfl⟩
  by_cases h2 : c = '<'
  · subst h2; exact Or.inr ⟨"lt;".data, rfl⟩
  by_cases h3 : c = '>'
  · subst h3; exact Or.inr ⟨"gt;".data, rfl⟩
  by_cases h4 : c = '"'
  · subst h4; exact Or.inr ⟨"quot;".data, rfl⟩
  by_cases h5 : c = apos
  · subst h5; exact Or.inr ⟨"apos;".data, rfl⟩
  exact Or.inl (by simp [escChar, h1, h2, h3, h4, h5])

/-- For a special character, the escape block splits as `front ++ [';']`
with length at most 6. -/
theorem escChar_block_semi (c : Char) :
    escChar c = [c] ∨
      ∃ bf, escChar c = bf ++ [';'] ∧ (bf ++ [';']).length ≤ 6 := by
  by_cases h1 : c = '&'
  · subst h1; exact Or.inr ⟨"&amp".data, rfl, by decide⟩
  by_cases h2 : c = '<'
  · subst h2; exact Or.inr ⟨"&lt".data, rfl, by decide⟩
  by_cases h3 : c = '>'
  · subst h3; exact Or.inr ⟨"&gt".data, rfl, by decide⟩
  by_cases h4 : c = '"'
  · subst h4; exact Or.inr ⟨"&quot".data, rfl, by decide⟩
  by_cases h5 : c = apos
  · subst h5; exact Or.inr ⟨"&apos".data, rfl, by decide⟩
  exact Or.inl (by simp [escChar, h1, h2, h3, h4, h5])

/-- A pattern without `&` that is a prefix of the escaped text is a prefix
of the raw text. -/
theorem isPre_escMap :
    ∀ (v : List Char) {p : List Char}, '&' ∉ p →
      isPre p (escMap v) = true → isPre p v = true := by
  intro v
  induction v with
  | nil =>
    intro p hAmp h
    cases p with
    | nil => rfl
    | cons d p => simp [escMap, isPre] at h
  | cons c t ih =>
    intro p hAmp h
    cases p with
    | nil => rfl
    | cons d p =>
      have hd : d ≠ '&' := fun he => hAmp (he ▸ List.mem_cons_self d p)
      have hAmp' : '&' ∉ p := fun he => hAmp (List.mem_cons_of_mem _ he)
      rcases escChar_block c with hb | ⟨bl, hb⟩
      · rw [show escMap (c :: t) = escChar c ++ escMap t from rfl, hb] at h
        simp only [List.singleton_append] at h
        show (d == c && isPre p t) = true
        have h' : (d == c && isPre p (escMap t)) = true := h
        simp only [Bool.and_eq_true] at h' ⊢
        exact ⟨h'.1, ih hAmp' h'.2⟩
      · rw [show escMap (c :: t) = escChar c ++ escMap t from rfl, hb] at h
        simp only [List.cons_append] at h
        have h' : (d == '&' && isPre p (bl ++ escMap t)) = true := h
        simp only [Bool.and_eq_true, beq_iff_eq] at h'
        exact absurd h'.1 hd

/-- A pattern avoiding `&` and `;` and longer than every escape block that
occurs in the escaped text also occurs in the raw text. -/
theorem occursB_escMap {p : List Char} (hAmp : '&' ∉ p) (hSemi : ';' ∉ p)
    (hLen : 6 < p.length) :
    ∀ v, occursB p (escMap v) = true → occursB p v = true := by
  have hp : p ≠ [] := by
    intro h
    rw [h] at hLen
    simp at hLen
  intro v
  induction v with
  | nil =>
    intro h
    rw [show escMap [] = [] from rfl, occursB_nil_of_ne hp] at h
    exact absurd h (by simp)
  | cons c t ih =>
    intro h
    rw [show escMap (c :: t) = escChar c ++ escMap t from rfl] at h
    rcases escChar_block_semi c with hb | ⟨bf, hb, hblen⟩
    · rw [hb, List.singleton_append] at h
      have h' : (isPre p (c :: escMap t) || occursB p (escMap t)) = true := h
      rcases Bool.or_eq_true _ _ ▸ h' with h1 | h2
      · have : isPre p (escMap (c :: t)) = true := by
          rw [show escMap (c :: t) = escChar c ++ escMap t from rfl, hb,
            List.singleton_append]
          exact h1
        have hpre := isPre_escMap (c :: t) hAmp this
        show (isPre p (c :: t) || occursB p t) = true
        rw [hpre]
        rfl
      · have := ih h2
        show (isPre p (c :: t) || occursB p t) = true
        rw [this]
        simp
    · rw [hb] at h
      rw [show (bf ++ [';']) ++ escMap t = bf ++ [';'] ++ escMap t by simp,
        occursB_split_right hp ';' hSemi bf (escMap t)] at h
      rcases Bool.or_eq_true _ _ ▸ h with h1 | h2
      · have hle := occursB_length h1
        simp only [List.length_append, List.length_cons, List.length_nil] at hle hblen
        omega
      · have := ih h2
        show (isPre p (c :: t) || occursB p t) = true
        rw [this]
        simp

/-- `occursB` through `escapeL`: the main non-injection lemma used to show
absence of an attribute in rendered output. -/
theorem occursB_escapeL {p : List Char} (hAmp : '&' ∉ p) (hSemi : ';' ∉ p)
    (hLen : 6 < p.length) (v : List Char) (hv : occursB p v = false) :
    occursB p (escapeL v) = false := by
  rw [escapeL_eq_escMap]
  by_contra h
  have h' : occursB p (escMap v) = true := by
    cases hres : occursB p (escMap v) with
    | false => exact absurd hres h
    | true => rfl
  have := occursB_escMap hAmp hSemi hLen v h'
  rw [hv] at this
  exact absurd this (by simp)

/-! ## Roster CSV model (source: `readRosterCsv`, src/cli.ts)

`readRosterCsv` delegates tokenisation to the `csv-parse` library with
options `{ columns: true, bom: true, skip_empty_lines: true, trim: true }`.
`parseCsvRecords` models that call for the unquoted-field inputs the tool's
own documentation describes: UTF-8 text with an optional BOM, LF or CRLF
line endings, comma-separated fields, a header row mapped to column names,
empty lines skipped, every field trimmed.  (The library's quoted-field
layer is not modelled; no claim exercises quoted fields.)  Records are
association lists from column name to field value, mirroring the
`Record<string, string>` objects csv-parse produces. -/

/-- One result row of the roster reader (`RosterRow` in src/cli.ts).
Optional fields are `Option` because the source leaves them `undefined`
when empty or absent. -/
structure RosterRow where
  candidateNumber : String
  candidateName : String
  candidateAccount : Option String
  candidateId : Option String
  resultId : String
deriving DecidableEq, Repr

/-- Strip a trailing carriage return, modelling csv-parse's acceptance of
CRLF and LF record delimiters. -/
def stripCR (l : List Char) : List Char :=
  match l.reverse with
  | '\r' :: t => t.reverse
  | _ => l

/-- Strip a leading byte-order mark (`bom: true`). -/
def stripBom (l : List Char) : List Char :=
  match l with
  | c :: t => if c = Char.ofNat 0xFEFF then t else c :: t
  | [] => []

/-- The lines of the CSV text: split at newlines, strip carriage returns. -/
def csvLines (l : List Char) : List (List Char) :=
  (splitOnChar '\n' (stripBom l)).map stripCR

/-- Fields of one CSV line, each trimmed (`trim: true`). -/
def csvFields (line : List Char) : List String :=
  (splitOnChar ',' line).map (fun f => ⟨trimL f⟩)

/-- Model of the `csv-parse` call in `readRosterCsv`: header-driven records
with empty lines skipped.  A data line whose field count differs from the
header's raises the library's record-length error. -/
def parseCsvRecords (csv : String) : Except String (List (List (String × String))) :=
  match (csvLines csv.data).filter (fun line => !line.isEmpty) with
  | [] => Except.ok []
  | header :: dataLines =>
    let cols := csvFields header
    dataLines.mapM (fun line =>
      let fields := csvFields line
      if fields.length = cols.length then Except.ok (cols.zip fields)
      else Except.error "Invalid Record Length")

/-- `record["name"]?.trim()` — field lookup plus the reader's own `.trim()`.
A missing column (JS `undefined`) and an empty value are conflated to `""`,
exactly as the source's falsiness checks and `|| fallback` operators do. -/
def fieldOf (record : List (String × String)) (name : String) : String :=
  jsTrim ((record.lookup name).getD "")

/-- The row object pushed by `readRosterCsv` for one parsed record
(the object literal at the end of the `records.forEach` body). -/
def mkRow (record : List (String × String)) : RosterRow :=
  let candidateNumber := fieldOf record "candidate_number"
  let candidateAccount := fieldOf record "candidate_account"
  let candidateId := fieldOf record "candidate_id"
  let resultIdRaw := fieldOf record "result_id"
  { candidateNumber := candidateNumber
    candidateName := fieldOf record "candidate_name"
    candidateAccount := if candidateAccount = "" then none else some candidateAccount
    candidateId := if candidateId = "" then none else some candidateId
    resultId := if resultIdRaw = "" then candidateNumber else resultIdRaw }

/-- `/\d/.test(candidateNumber)` — at least one decimal digit. -/
def hasDigit (s : String) : Bool := s.data.any Char.isDigit

/-- The `records.forEach` validation loop of `readRosterCsv`: checks in
source order, first failure wins, `seen` carries the result-id uniqueness
set. -/
def rowsLoop : List (List (String × String)) → Nat → List String →
    Except String (List RosterRow)
  | [], _, _ => Except.ok []
  | record :: rest, idx, seen =>
    let row := mkRow record
    if row.candidateNumber = "" then
      Except.error ("Missing candidate_number at row " ++ natStr (idx + 2) ++ ".")
    else if !hasDigit row.candidateNumber then
      Except.error "candidate_number must include at least one digit"
    else if row.candidateName = "" then
      Except.error ("Missing candidate_name at row " ++ natStr (idx + 2) ++ ".")
    else if row.resultId = "" then
      Except.error ("Missing result_id at row " ++ natStr (idx + 2) ++ ".")
    else if seen.contains row.resultId then
      Except.error ("Duplicate result_id: " ++ row.resultId)
    else
      match rowsLoop rest (idx + 1) (row.resultId :: seen) with
      | Except.error e => Except.error e
      | Except.ok rows => Except.ok (row :: rows)

/-- `readRosterCsv` from src/cli.ts (reading the already-loaded text):
parse the CSV, reject an empty record list, then validate row by row. -/
def readRosterCsv (csv : String) : Except String (List RosterRow) :=
  match parseCsvRecords csv with
  | Except.error e => Except.error e
  | Except.ok records =>
    if records.length = 0 then Except.error "Roster CSV is empty."
    else rowsLoop records 0 []

/-- A blank line strictly among the data lines of the CSV text (after the
header, not counting the trailing empty segment a final newline produces). -/
def hasInteriorBlankLine (csv : String) : Bool :=
  ((csvLines csv.data).dropLast.drop 1).contains []

/-! ## Assessment-test item extraction
(source: `readAssessmentTestItemIds`, src/cli.ts)

The source scans the XML text with the JavaScript regex

  `/<qti-assessment-item-ref\b[^>]*\bidentifier\s*=\s*(["'])([^"']+)\1[^>]*\/?\s*>/g`

collecting capture group 2 of each successive match.  The embedding
implements that regex's backtracking semantics for this fixed pattern:
leftmost match start, greedy `[^>]*` (so the latest feasible `identifier`
attribute inside the tag is tried first), a quoted value of one or more
non-quote characters closed by the same quote, and a closing `>` that ends
the match.  `\s` is modelled by `isSpaceChar`, `\w` by ASCII alphanumerics
plus underscore, as in JS regexes on ASCII input. -/

/-- JS regex `\w`. -/
def wordChar (c : Char) : Bool := c.isAlphanum || c = '_'

/-- Match `identifier\s*=\s*(["'])([^"']+)\1` exactly at the head of `v`:
returns the capture and the text after the closing quote. -/
def identTail (v : List Char) : Option (List Char × List Char) :=
  if isPre "identifier".data v then
    let v1 := (v.drop 10).dropWhile isSpaceChar
    match v1 with
    | '=' :: v3 =>
      let v4 := v3.dropWhile isSpaceChar
      match v4 with
      | q :: v5 =>
        if q = '"' || q = apos then
          let cap := v5.takeWhile (fun c => !(c = '"' || c = apos))
          match v5.dropWhile (fun c => !(c = '"' || c = apos)) with
          | q2 :: rest2 =>
            if cap.isEmpty then none
            else if q2 = q then some (cap, rest2) else none
          | [] => none
        else none
      | [] => none
    | _ => none
  else none

/-- Consume `[^>]*\/?\s*>`: everything up to and including the first `>`.
Returns the remainder after the match, or `none` when no `>` follows. -/
def closeTag : List Char → Option (List Char)
  | [] => none
  | c :: t => if c = '>' then some t else closeTag t

/-- Backtracking search for `[^>]*\bidentifier…` from the current position:
greedy `[^>]*` prefers the latest feasible attribute position (the `later`
branch); `prev` is the character before the current position, used for the
`\b` boundary test.  `[^>]*` cannot consume a `>`, which bounds the search. -/
def scanIdent (prev : Char) : List Char → Option (List Char × List Char)
  | [] => none
  | c :: v =>
    match if c = '>' then none else scanIdent c v with
    | some r => some r
    | none =>
      if wordChar prev then none
      else
        match identTail (c :: v) with
        | some (cap, rest) =>
          match closeTag rest with
          | some rest2 => some (cap, rest2)
          | none => none
        | none => none

/-- Attempt a full regex match at the current position: the 24-character
literal `<qti-assessment-item-ref`, the `\b` after it (its last character
`f` is a word character, so the next character must not be), then the
attribute search. -/
def matchItemRef (t : List Char) : Option (List Char × List Char) :=
  if isPre "<qti-assessment-item-ref".data t then
    match t.drop 24 with
    | [] => none
    | c :: v => if wordChar c then none else scanIdent 'f' (c :: v)
  else none

/-- `pattern.exec` loop: find the leftmost match, record its capture,
continue after the match end.  The fuel is the text length, which bounds
the number of positions ever visited. -/
def execAll (fuel : Nat) (s : List Char) : List (List Char) :=
  match fuel, s with
  | 0, _ => []
  | _, [] => []
  | fuel + 1, c :: s' =>
    match matchItemRef (c :: s') with
    | some (cap, rest) => cap :: execAll fuel rest
    | none => execAll fuel s'

/-- The uniqueness/non-empty `for` loop at the end of
`readAssessmentTestItemIds` (first error wins). -/
def itemIdsCheck : List String → List String → Except String Unit
  | [], _ => Except.ok ()
  | id :: rest, seen =>
    if id = "" then Except.error "Assessment test item identifier is empty."
    else if seen.contains id then
      Except.error ("Duplicate assessment test item identifier: " ++ id)
    else itemIdsCheck rest (id :: seen)

/-- `readAssessmentTestItemIds` from src/cli.ts (on the already-loaded
XML text). -/
def readAssessmentTestItemIds (xml : String) : Except String (List String) :=
  let itemIds := (execAll xml.data.length xml.data).map (fun l => (⟨l⟩ : String))
  if itemIds.length = 0 then
    Except.error "No assessment item refs found in assessment test."
  else
    match itemIdsCheck itemIds [] with
    | Except.error e => Except.error e
    | Except.ok _ => Except.ok itemIds

/-! ## Datestamp resolution (source: `resolveEndAt`, src/cli.ts)

`resolveEndAt` returns `new Date().toISOString()` for the literal `now`,
and otherwise accepts `raw` exactly when `Date.parse(raw)` is not `NaN`.
`dateParseAccepts` models `Date.parse` of the Node.js runtime: ECMA-262
specifies acceptance of the Date Time String Format (a simplification of
the ISO 8601 extended format, modelled by `ecmaIso`), and the engine's
legacy parser additionally accepts other layouts, of which the
slash-separated date (`YYYY/MM/DD`, modelled by `slashDate`) is one
documented example; the legacy parser accepts still more forms, so the
model is a sound under-approximation of the accepted set.  Current-time
resolution is real-time behaviour, so the resolved `now` string is passed
in as a parameter. -/

def digToNat (c : Char) : Nat := c.toNat - 48

/-- Read exactly `n` decimal digits. -/
def takeDigitsN (n : Nat) (l : List Char) : Option (Nat × List Char) :=
  let ds := l.take n
  if ds.length = n ∧ ds.all Char.isDigit then
    some (ds.foldl (fun a c => a * 10 + digToNat c) 0, l.drop n)
  else none

/-- Read one or two decimal digits (legacy slash dates allow both). -/
def takeDigits12 (l : List Char) : Option (Nat × List Char) :=
  let ds := (l.takeWhile Char.isDigit).take 2
  if ds.isEmpty then none
  else some (ds.foldl (fun a c => a * 10 + digToNat c) 0, l.drop ds.length)

def isLeap (y : Nat) : Bool := (y % 4 = 0 && y % 100 ≠ 0) || y % 400 = 0

def daysInMonth (y m : Nat) : Nat :=
  if m = 2 then (if isLeap y then 29 else 28)
  else if m = 4 ∨ m = 6 ∨ m = 9 ∨ m = 11 then 30
  else 31

/-- Signed year (expanded `±YYYYYY`) or four-digit year. -/
def parseYear (l : List Char) : Option (Nat × List Char) :=
  match l with
  | '+' :: t => takeDigitsN 6 t
  | '-' :: t => takeDigitsN 6 t
  | _ => takeDigitsN 4 l

/-- Time-zone offset at end of input: empty, `Z`, or `±HH:mm`. -/
def parseOffsetEnd (l : List Char) : Bool :=
  match l with
  | [] => true
  | ['Z'] => true
  | c :: t =>
    if c = '+' ∨ c = '-' then
      match takeDigitsN 2 t with
      | some (hh, ':' :: t2) =>
        match takeDigitsN 2 t2 with
        | some (mm, []) => decide (hh ≤ 23) && decide (mm ≤ 59)
        | _ => false
      | _ => false
    else false

/-- Optional `:ss` and fractional seconds; reports whether the fraction is
all zeros (needed only for the `24:00:00` end-of-day form). -/
def parseSecFrac (l : List Char) : Option (Nat × Bool × List Char) :=
  match l with
  | ':' :: t =>
    match takeDigitsN 2 t with
    | some (ss, '.' :: t3) =>
      let ds := t3.takeWhile Char.isDigit
      if ds.isEmpty then none
      else some (ss, ds.all (fun c => c = '0'), t3.dropWhile Char.isDigit)
    | some (ss, r) => some (ss, true, r)
    | none => none
  | _ => some (0, true, l)

def timeValid (hh mm ss : Nat) (zeroFrac : Bool) : Bool :=
  (decide (hh ≤ 23) && decide (mm ≤ 59) && decide (ss ≤ 59)) ||
  (decide (hh = 24) && decide (mm = 0) && decide (ss = 0) && zeroFrac)

/-- `HH:mm[:ss[.s+]]` plus offset, consuming the rest of the input. -/
def parseTimeEnd (l : List Char) : Bool :=
  match takeDigitsN 2 l with
  | some (hh, ':' :: t1) =>
    match takeDigitsN 2 t1 with
    | some (mm, rest1) =>
      match parseSecFrac rest1 with
      | some (ss, zf, rest2) => timeValid hh mm ss zf && parseOffsetEnd rest2
      | none => false
    | none => false
  | _ => false

/-- The ECMA-262 Date Time String Format: `YYYY[-MM[-DD]]` optionally
followed by `T` and a time-of-day with optional offset, with calendar
validity checks as the engine's ISO parser performs them. -/
def ecmaIso (l : List Char) : Bool :=
  match parseYear l with
  | none => false
  | some (y, rest) =>
    match rest with
    | [] => true
    | 'T' :: r1 => parseTimeEnd r1
    | '-' :: r1 =>
      match takeDigitsN 2 r1 with
      | some (m, rest2) =>
        if 1 ≤ m ∧ m ≤ 12 then
          match rest2 with
          | [] => true
          | 'T' :: r2 => parseTimeEnd r2
          | '-' :: r2 =>
            match takeDigitsN 2 r2 with
            | some (d, rest3) =>
              if 1 ≤ d ∧ d ≤ daysInMonth y m then
                match rest3 with
                | [] => true
                | 'T' :: r3 => parseTimeEnd r3
                | _ => false
              else false
            | none => false
          | _ => false
        else false
      | none => false
    | _ => false

/-- Legacy engine format: `YYYY/M/D` slash dates (one documented non-ISO
layout the engine's `Date.parse` accepts). -/
def slashDate (l : List Char) : Bool :=
  match takeDigitsN 4 l with
  | some (_y, '/' :: r1) =>
    match takeDigits12 r1 with
    | some (m, '/' :: r2) =>
      match takeDigits12 r2 with
      | some (d, []) =>
        decide (1 ≤ m) && decide (m ≤ 12) && decide (1 ≤ d) && decide (d ≤ 31)
      | _ => false
    | _ => false
  | _ => false

/-- Model of `Date.parse(raw)` being a number (not `NaN`). -/
def dateParseAccepts (s : String) : Bool := ecmaIso s.data || slashDate s.data

/-- The specification's words: the supplied value "is an ISO 8601
datetime string" (read, as ECMA-262 itself does, as the ISO 8601 extended
calendar date/time profile). -/
def isIso8601DatetimeSpec (s : String) : Bool := ecmaIso s.data

/-- `resolveEndAt` from src/cli.ts.  `nowIso` stands for
`new Date().toISOString()`, resolved at run time. -/
def resolveEndAt (nowIso raw : String) : Except String String :=
  if raw = "now" then Except.ok nowIso
  else if dateParseAccepts raw then Except.ok raw
  else Except.error "--test-result-datestamp must be an ISO 8601 datetime or 'now'."

/-! ## Document renderer (source: `buildAssessmentResultXml`, src/cli.ts)

The source pushes lines into an array and joins them with `"\n"`, with a
trailing newline.  `buildResultLines` is that array; each helper below is
the string literal of the corresponding `lines.push` call, verbatim.
JavaScript truthiness of the optional fields (`undefined` and `""` are
both falsy) is modelled by `optTruthy`. -/

def RESULTS_NAMESPACE : String := "http://www.imsglobal.org/xsd/imsqti_result_v3p0"

def XSI_NAMESPACE : String := "http://www.w3.org/2001/XMLSchema-instance"

def SCHEMA_LOCATION : String := RESULTS_NAMESPACE ++ " " ++ RESULTS_NAMESPACE ++ ".xsd"

/-- JS truthiness for an optional string: `undefined` and `""` are falsy. -/
def optTruthy : Option String → Option String
  | none => none
  | some s => if s = "" then none else some s

def xmlDeclLine : String := "<?xml version=\"1.0\" encoding=\"UTF-8\"?>"

def rootLine : String :=
  "<assessmentResult xmlns=\"" ++ RESULTS_NAMESPACE ++ "\" xmlns:xsi=\"" ++
    XSI_NAMESPACE ++ "\" xsi:schemaLocation=\"" ++ SCHEMA_LOCATION ++ "\">"

def contextLine (cn : String) : String :=
  "  <context sourcedId=\"" ++ escapeXml cn ++ "\">"

def sessLine (src ident : String) : String :=
  "    <sessionIdentifier sourceID=\"" ++ src ++ "\" identifier=\"" ++
    escapeXml ident ++ "\" />"

def mkTestLine (tid : String) (ds : Option String) : String :=
  match optTruthy ds with
  | some d =>
    "  <testResult identifier=\"" ++ escapeXml tid ++ "\" datestamp=\"" ++
      escapeXml d ++ "\" />"
  | none => "  <testResult identifier=\"" ++ escapeXml tid ++ "\" />"

def mkItemLine (id : String) (seq : Nat) (ds : Option String) : String :=
  match optTruthy ds with
  | some d =>
    "  <itemResult identifier=\"" ++ escapeXml id ++ "\" sequenceIndex=\"" ++
      natStr seq ++ "\" datestamp=\"" ++ escapeXml d ++
      "\" sessionStatus=\"final\" />"
  | none =>
    "  <itemResult identifier=\"" ++ escapeXml id ++ "\" sequenceIndex=\"" ++
      natStr seq ++ "\" sessionStatus=\"final\" />"

/-- The `itemIds.forEach((itemId, index) => …)` loop; `seq` is `index + 1`,
starting at 1. -/
def itemResultLines (ds : Option String) (seq : Nat) : List String → List String
  | [] => []
  | id :: rest => mkItemLine id seq ds :: itemResultLines ds (seq + 1) rest

/-- The conditional `lines.push` of an optional session identifier
(`if (row.candidateId) { lines.push(…) }`). -/
def optSessLine (src : String) : Option String → List String
  | some v => [sessLine src v]
  | none => []

/-- The `lines` array of `buildAssessmentResultXml`, in push order. -/
def buildResultLines (row : RosterRow) (tid : String) (ds : Option String)
    (itemIds : List String) : List String :=
  [xmlDeclLine, rootLine, contextLine row.candidateNumber,
    sessLine "candidateName" row.candidateName]
  ++ optSessLine "candidateId" (optTruthy row.candidateId)
  ++ optSessLine "candidateAccount" (optTruthy row.candidateAccount)
  ++ ["  </context>", mkTestLine tid ds]
  ++ itemResultLines ds 1 itemIds
  ++ ["</assessmentResult>"]

/-- `lines.join("\n")`. -/
def joinNL : List String → String
  | [] => ""
  | [x] => x
  | x :: rest => x ++ "\n" ++ joinNL rest

/-- `buildAssessmentResultXml` from src/cli.ts:
`` `${lines.join("\n")}\n` ``. -/
def buildAssessmentResultXml (row : RosterRow) (tid : String)
    (ds : Option String) (itemIds : List String) : String :=
  joinNL (buildResultLines row tid ds itemIds) ++ "\n"

/-! ## Output planning and the write phase
(source: `buildOutputPlan`, `ensureWritable`, `writeOutputs`, `main`) -/

structure OutputPlan where
  resultId : String
  path : String
deriving DecidableEq, Repr

/-- Model of Node `path.join(dir, name)` for a normalized directory path
and a bare file name (the only way the source calls it). -/
def pathJoin (dir name : String) : String := dir ++ "/" ++ name

/-- `buildOutputPlan` from src/cli.ts. -/
def buildOutputPlan (outputDir : String) (rows : List RosterRow) : List OutputPlan :=
  rows.map (fun row =>
    { resultId := row.resultId
      path := pathJoin outputDir ("assessmentResult-" ++ row.resultId ++ ".xml") })

/-- Filesystem state: the set of existing directories and the files with
their contents.  All `fs` calls the write phase makes are modelled as pure
state transitions on this record. -/
structure FsState where
  dirs : List String
  files : List (String × String)
deriving DecidableEq, Repr

/-- `fs.existsSync`. -/
def existsSync (st : FsState) (p : String) : Bool :=
  st.dirs.contains p || (st.files.map Prod.fst).contains p

/-- `fs.mkdirSync(dir, { recursive: true })` (parent creation is not
observable through any claim, so only the directory itself is recorded). -/
def mkdirRecursive (st : FsState) (dir : String) : FsState :=
  { st with dirs := dir :: st.dirs }

/-- `ensureWritable` from src/cli.ts: create a missing output directory,
otherwise fail on the first already-existing planned output unless
`force`. -/
def ensureWritable (st : FsState) (outputDir : String) (outputs : List OutputPlan)
    (force : Bool) : Except String FsState :=
  if !(existsSync st outputDir) then Except.ok (mkdirRecursive st outputDir)
  else
    match outputs.find? (fun o => existsSync st o.path && !force) with
    | some o =>
      Except.error ("Output file already exists: " ++ o.path ++
        " (use --force to overwrite)")
    | none => Except.ok st

/-- `fs.writeFileSync` (create or overwrite). -/
def writeFileSync (st : FsState) (p contents : String) : FsState :=
  { st with files := (p, contents) :: st.files.filter (fun pc => pc.fst ≠ p) }

/-- The `rowByResult` map of `writeOutputs`: a JS `Map` built from
`(resultId, row)` pairs keeps the last entry for a duplicated key. -/
def rowByResult (rows : List RosterRow) (rid : String) : Option RosterRow :=
  rows.reverse.find? (fun r => r.resultId = rid)

/-- The `outputs.forEach` body of `writeOutputs`: render and write each
planned file in order; a missing roster row aborts with the error the
source throws there. -/
def writeOutputsGo (rows : List RosterRow) (tid : String) (ds : Option String)
    (itemIds : List String) : FsState → List OutputPlan → Option String × FsState
  | st, [] => (none, st)
  | st, o :: rest =>
    match rowByResult rows o.resultId with
    | none => (some ("Missing roster row for resultId: " ++ o.resultId), st)
    | some row =>
      writeOutputsGo rows tid ds itemIds
        (writeFileSync st o.path (buildAssessmentResultXml row tid ds itemIds)) rest

/-- The write phase of `main` (after the dry-run early return):
`ensureWritable` followed by `writeOutputs`.  The first component is the
error diagnostic (`none` on success), the second the resulting filesystem
state. -/
def runWritePhase (st : FsState) (outputDir : String) (outputs : List OutputPlan)
    (rows : List RosterRow) (tid : String) (ds : Option String)
    (itemIds : List String) (force : Bool) : Option String × FsState :=
  match ensureWritable st outputDir outputs force with
  | Except.error e => (some e, st)
  | Except.ok st1 => writeOutputsGo rows tid ds itemIds st1 outputs

/-! ## Line classification in rendered documents -/

/-- The line renders an `itemResult` element (they are exactly the lines
the `itemIds.forEach` loop pushes, each starting with this template
prefix that no escaped value can influence). -/
def isItemLine (line : String) : Bool := isPre "  <itemResult".data line.data

/-- The line renders the `testResult` element. -/
def isTestLine (line : String) : Bool := isPre "  <testResult".data line.data

theorem isItemLine_xmlDecl : isItemLine xmlDeclLine = false := rfl

theorem isItemLine_root : isItemLine rootLine = false := rfl

theorem isItemLine_context (cn : String) : isItemLine (contextLine cn) = false := rfl

theorem isItemLine_sess (src ident : String) :
    isItemLine (sessLine src ident) = false := rfl

theorem isItemLine_contextClose : isItemLine "  </context>" = false := rfl

theorem isItemLine_docClose : isItemLine "</assessmentResult>" = false := rfl

theorem isItemLine_testLine (tid : String) (ds : Option String) :
    isItemLine (mkTestLine tid ds) = false := by
  unfold mkTestLine
  split <;> rfl

theorem isItemLine_itemLine (id : String) (seq : Nat) (ds : Option String) :
    isItemLine (mkItemLine id seq ds) = true := by
  unfold mkItemLine
  split <;> rfl

theorem isTestLine_xmlDecl : isTestLine xmlDeclLine = false := rfl

theorem isTestLine_root : isTestLine rootLine = false := rfl

theorem isTestLine_context (cn : String) : isTestLine (contextLine cn) = false := rfl

theorem isTestLine_sess (src ident : String) :
    isTestLine (sessLine src ident) = false := rfl

theorem isTestLine_contextClose : isTestLine "  </context>" = false := rfl

theorem isTestLine_docClose : isTestLine "</assessmentResult>" = false := rfl

theorem isTestLine_testLine (tid : String) (ds : Option String) :
    isTestLine (mkTestLine tid ds) = true := by
  unfold mkTestLine
  split <;> rfl

theorem isTestLine_itemLine (id : String) (seq : Nat) (ds : Option String) :
    isTestLine (mkItemLine id seq ds) = false := by
  unfold mkItemLine
  split <;> rfl

theorem itemResultLines_filter (ds : Option String) :
    ∀ ids seq, (itemResultLines ds seq ids).filter isItemLine = itemResultLines ds seq ids := by
  intro ids
  induction ids with
  | nil => intro seq; rfl
  | cons a rest ih =>
    intro seq
    simp [itemResultLines, List.filter_cons, isItemLine_itemLine, ih]

theorem itemResultLines_length (ds : Option String) :
    ∀ ids seq, (itemResultLines ds seq ids).length = ids.length := by
  intro ids
  induction ids with
  | nil => intro seq; rfl
  | cons a rest ih => intro seq; simp [itemResultLines, ih]

theorem itemResultLines_getElem (ds : Option String) :
    ∀ (ids : List String) (seq i : Nat), i < ids.length → ∀ id, ids[i]? = some id →
      (itemResultLines ds seq ids)[i]? = some (mkItemLine id (seq + i) ds) := by
  intro ids
  induction ids with
  | nil => intro seq i hi; simp at hi
  | cons a rest ih =>
    intro seq i hi id hid
    cases i with
    | zero =>
      simp only [List.getElem?_cons_zero, Option.some.injEq] at hid
      subst hid
      simp [itemResultLines]
    | succ j =>
      have hj : j < rest.length := by simpa using hi
      have hid' : rest[j]? = some id := by simpa using hid
      have := ih (seq + 1) j hj id hid'
      simpa [itemResultLines, Nat.add_assoc, Nat.add_comm 1 j] using this

/-- The `itemResult` lines of a rendered document are exactly the
`forEach` loop's output, regardless of the roster row. -/
theorem optSessLine_filter_item (src : String) (o : Option String) :
    (optSessLine src o).filter isItemLine = [] := by
  cases o <;> simp [optSessLine, isItemLine_sess]

theorem buildResultLines_filter_item (row : RosterRow) (tid : String)
    (ds : Option String) (itemIds : List String) :
    (buildResultLines row tid ds itemIds).filter isItemLine =
      itemResultLines ds 1 itemIds := by
  unfold buildResultLines
  simp [List.filter_append, List.filter_cons, isItemLine_xmlDecl,
    isItemLine_root, isItemLine_context, isItemLine_sess,
    isItemLine_contextClose, isItemLine_docClose, isItemLine_testLine,
    itemResultLines_filter, optSessLine_filter_item]

/-! ## Claims -/

/-- C5: For every run with a fixed extracted item-identifier sequence of
length n, every rendered candidate document contains exactly n item-result
elements, the i-th carrying the i-th extracted identifier and sequence
index i (1-based), so the identifier-to-index mapping is identical across
every candidate's document in that run.  (`mkItemLine id (i + 1) ds` is the
source's push for identifier `id` at 1-based index `i + 1`.) -/
theorem c5_item_results_sequence (row : RosterRow) (tid : String)
    (ds : Option String) (itemIds : List String) :
    ((buildResultLines row tid ds itemIds).filter isItemLine).length = itemIds.length ∧
    (∀ i, i < itemIds.length → ∀ id, itemIds[i]? = some id →
      ((buildResultLines row tid ds itemIds).filter isItemLine)[i]? =
        some (mkItemLine id (i + 1) ds)) ∧
    (∀ row2 : RosterRow,
      (buildResultLines row2 tid ds itemIds).filter isItemLine =
        (buildResultLines row tid ds itemIds).filter isItemLine) := by
  refine ⟨?_, ?_, ?_⟩
  · rw [buildResultLines_filter_item]
    exact itemResultLines_length ds itemIds 1
  · intro i hi id hid
    rw [buildResultLines_filter_item]
    have := itemResultLines_getElem ds itemIds 1 i hi id hid
    simpa [Nat.add_comm 1 i] using this
  · intro row2
    rw [buildResultLines_filter_item, buildResultLines_filter_item]

def rowEx : RosterRow :=
  { candidateNumber := "1001", candidateName := "Alice",
    candidateAccount := none, candidateId := none, resultId := "1001" }

/-- Witness for C5 at a concrete two-item run. -/
theorem c5_witness :
    1 < (["item-001", "item-002"] : List String).length ∧
    (["item-001", "item-002"] : List String)[1]? = some "item-002" ∧
    ((buildResultLines rowEx "t" none ["item-001", "item-002"]).filter isItemLine)[1]? =
      some (mkItemLine "item-002" 2 none) :=
  ⟨by decide, by rfl,
    (c5_item_results_sequence rowEx "t" none ["item-001", "item-002"]).2.1 1
      (by decide) "item-002" (by rfl)⟩

/-- C8: The document renderer is deterministic — two invocations with
identical inputs (same roster record, test-result identifier, optional
datestamp, item-identifier sequence) produce byte-identical output text.
The embedded renderer is a pure function of exactly these arguments (the
source consults no ambient state), so equal inputs give equal output. -/
theorem c8_renderer_deterministic (r1 r2 : RosterRow) (t1 t2 : String)
    (d1 d2 : Option String) (i1 i2 : List String)
    (hr : r1 = r2) (ht : t1 = t2) (hd : d1 = d2) (hi : i1 = i2) :
    buildAssessmentResultXml r1 t1 d1 i1 = buildAssessmentResultXml r2 t2 d2 i2 := by
  subst hr; subst ht; subst hd; subst hi; rfl

/-- Witness for C8 at concrete inputs. -/
theorem c8_witness :
    buildAssessmentResultXml rowEx "t" (some "2026-01-27") ["a"] =
      buildAssessmentResultXml rowEx "t" (some "2026-01-27") ["a"] :=
  c8_renderer_deterministic rowEx rowEx "t" "t" (some "2026-01-27")
    (some "2026-01-27") ["a"] ["a"] rfl rfl rfl rfl

/-- C10: When the output plan passed to the write loop was computed by
`buildOutputPlan` from the same roster records (as `main` always does),
the "Missing roster row for resultId" branch of `writeOutputs` is
unreachable: every plan entry's resultId is found in the record map, and
the write loop completes without error. -/
theorem c10_missing_row_unreachable (st : FsState) (dir : String)
    (rows : List RosterRow) (tid : String) (ds : Option String)
    (itemIds : List String) :
    (∀ o ∈ buildOutputPlan dir rows, (rowByResult rows o.resultId).isSome = true) ∧
    (writeOutputsGo rows tid ds itemIds st (buildOutputPlan dir rows)).fst = none := by
  have hmem : ∀ o ∈ buildOutputPlan dir rows, (rowByResult rows o.resultId).isSome = true := by
    intro o ho
    obtain ⟨row, hrow, rfl⟩ := List.mem_map.mp ho
    unfold rowByResult
    rw [List.find?_isSome]
    exact ⟨row, List.mem_reverse.mpr hrow, by simp⟩
  refine ⟨hmem, ?_⟩
  have hgo : ∀ (plan : List OutputPlan) (st0 : FsState),
      (∀ o ∈ plan, (rowByResult rows o.resultId).isSome = true) →
      (writeOutputsGo rows tid ds itemIds st0 plan).fst = none := by
    intro plan
    induction plan with
    | nil => intro st0 _; rfl
    | cons o rest ih =>
      intro st0 hall
      have ho : (rowByResult rows o.resultId).isSome = true :=
        hall o (List.mem_cons_self o rest)
      obtain ⟨row, hrow⟩ := Option.isSome_iff_exists.mp ho
      show (writeOutputsGo rows tid ds itemIds st0 (o :: rest)).fst = none
      unfold writeOutputsGo
      rw [hrow]
      exact ih _ (fun o' ho' => hall o' (List.mem_cons_of_mem _ ho'))
  exact hgo _ st hmem

/-- C2: In write mode, when some planned output file already exists in an
existing output directory and force mode is off, the run aborts with a
conflict error before any output file is written: the resulting filesystem
state equals the initial one. -/
theorem c2_conflict_aborts_before_writes (st : FsState) (outputDir : String)
    (outputs : List OutputPlan) (rows : List RosterRow) (tid : String)
    (ds : Option String) (itemIds : List String)
    (hdir : existsSync st outputDir = true)
    (hconf : ∃ o ∈ outputs, existsSync st o.path = true) :
    ∃ e, runWritePhase st outputDir outputs rows tid ds itemIds false = (some e, st) := by
  obtain ⟨o, ho, hex⟩ := hconf
  have hfind : (outputs.find? (fun o => existsSync st o.path && !false)).isSome = true := by
    rw [List.find?_isSome]
    exact ⟨o, ho, by simp [hex]⟩
  obtain ⟨o', ho'⟩ := Option.isSome_iff_exists.mp hfind
  refine ⟨"Output file already exists: " ++ o'.path ++ " (use --force to overwrite)", ?_⟩
  unfold runWritePhase ensureWritable
  rw [hdir]
  simp only [Bool.not_true, Bool.false_eq_true, if_false]
  rw [ho']

def stEx : FsState :=
  { dirs := ["/out"], files := [("/out/assessmentResult-1001.xml", "old")] }

def outputsEx : List OutputPlan :=
  [{ resultId := "1001", path := "/out/assessmentResult-1001.xml" }]

/-- Witness for C2 at a concrete conflicting filesystem state. -/
theorem c2_witness :
    ∃ e, runWritePhase stEx "/out" outputsEx [rowEx] "t" none ["a"] false = (some e, stEx) :=
  c2_conflict_aborts_before_writes stEx "/out" outputsEx [rowEx] "t" none ["a"]
    (by decide)
    ⟨{ resultId := "1001", path := "/out/assessmentResult-1001.xml" }, by decide, by decide⟩

def blankRowCsv : String := "candidate_number,candidate_name\n1001,Alice\n\n1002,Bob\n"

/-- C1 (counterexample): a roster CSV with a blank row among its data
rows is read successfully — the blank line is silently skipped by the
csv-parse `skip_empty_lines: true` option and both surrounding records are
returned, contradicting the claim that blank rows are rejected with an
error. -/
theorem c1_blank_row_skipped :
    hasInteriorBlankLine blankRowCsv = true ∧
    readRosterCsv blankRowCsv = Except.ok
      [{ candidateNumber := "1001", candidateName := "Alice",
         candidateAccount := none, candidateId := none, resultId := "1001" },
       { candidateNumber := "1002", candidateName := "Bob",
         candidateAccount := none, candidateId := none, resultId := "1002" }] :=
  ⟨rfl, rfl⟩

set_option maxRecDepth 80000 in
/-- C4 (divergence witness): an assessment test containing an
item-reference element whose identifier attribute is the empty string is
extracted successfully — the element is silently ignored because the
regex's value group `([^"']+)` requires at least one character, so the
source's dedicated "Assessment test item identifier is empty." error is
unreachable; the claim says extraction fails with an error. -/
theorem c4_empty_identifier_ignored :
    occursB "identifier=\"\"".data
      ("<qti-assessment-test><qti-assessment-item-ref identifier=\"item-001\"/><qti-assessment-item-ref identifier=\"\"/></qti-assessment-test>" : String).data = true ∧
    readAssessmentTestItemIds
      "<qti-assessment-test><qti-assessment-item-ref identifier=\"item-001\"/><qti-assessment-item-ref identifier=\"\"/></qti-assessment-test>" =
      Except.ok ["item-001"] :=
  ⟨rfl, rfl⟩

/-- C3 (counterexample): `2020/01/02` is not an ISO 8601 datetime string
and is not the literal `now`, yet the run accepts it — `Date.parse`
recognises the engine's legacy slash-date layout, so the acceptance set is
strictly larger than "ISO 8601 or `now`". -/
theorem c3_counterexample :
    resolveEndAt "2026-02-03T00:00:00.000Z" "2020/01/02" = Except.ok "2020/01/02" ∧
    isIso8601DatetimeSpec "2020/01/02" = false ∧
    ("2020/01/02" : String) ≠ "now" :=
  ⟨rfl, rfl, by decide⟩

/-- C3 (amended): a supplied datestamp is accepted exactly when it is the
literal `now` or a value `Date.parse` recognises; that set contains every
ISO 8601 datetime (the ECMA Date Time String Format) but also legacy
engine layouts such as slash dates, and only values `Date.parse` cannot
parse fail the run as malformed-datestamp errors. -/
theorem c3_amended (nowIso raw : String) :
    ((∃ v, resolveEndAt nowIso raw = Except.ok v) ↔
      (raw = "now" ∨ dateParseAccepts raw = true)) ∧
    (isIso8601DatetimeSpec raw = true → dateParseAccepts raw = true) := by
  constructor
  · by_cases hn : raw = "now"
    · simp [resolveEndAt, hn]
    · by_cases hd : dateParseAccepts raw
      · simp [resolveEndAt, hn, hd]
      · simp [resolveEndAt, hn, hd]
  · intro h
    unfold dateParseAccepts
    unfold isIso8601DatetimeSpec at h
    rw [h]
    rfl

/-- Witness for C3's amended claim at a concrete ISO datetime. -/
theorem c3_amended_witness :
    isIso8601DatetimeSpec "2026-01-27T10:00:00+09:00" = true ∧
    dateParseAccepts "2026-01-27T10:00:00+09:00" = true ∧
    (∃ v, resolveEndAt "X" "2026-01-27T10:00:00+09:00" = Except.ok v) :=
  ⟨by decide,
    (c3_amended "X" "2026-01-27T10:00:00+09:00").2 (by decide),
    (c3_amended "X" "2026-01-27T10:00:00+09:00").1.mpr (Or.inr (by decide))⟩

/-! ### Roster reader characterisation -/

/-- When the validation loop succeeds, its output is exactly `mkRow` of
each record, in input order. -/
theorem rowsLoop_ok :
    ∀ (records : List (List (String × String))) (idx : Nat) (seen : List String)
      (out : List RosterRow), rowsLoop records idx seen = Except.ok out →
      out = records.map mkRow := by
  intro records
  induction records with
  | nil =>
    intro idx seen out h
    simp only [rowsLoop, Except.ok.injEq] at h
    simp [← h]
  | cons record rest ih =>
    intro idx seen out h
    simp only [rowsLoop] at h
    split at h
    · exact absurd h (by simp)
    split at h
    · exact absurd h (by simp)
    split at h
    · exact absurd h (by simp)
    split at h
    · exact absurd h (by simp)
    split at h
    · exact absurd h (by simp)
    split at h
    · exact absurd h (by simp)
    · rename_i rows heq
      simp only [Except.ok.injEq] at h
      subst h
      rw [List.map_cons, ih _ _ _ heq]

/-- The claim-side result-id rule, in the specification's words: the
trimmed `result_id` column value if non-empty, else the `candidate_number`
value. -/
def specResultId (record : List (String × String)) : String :=
  let rid := jsTrim ((record.lookup "result_id").getD "")
  if rid = "" then jsTrim ((record.lookup "candidate_number").getD "") else rid

/-- C7: For every valid roster, the output plan has exactly one entry per
roster record, in input order, and each entry's file name is exactly
`assessmentResult-<resultId>.xml` where resultId is the trimmed result_id
column value if non-empty, else the candidate_number value. -/
theorem c7_output_plan (csv dir : String) (rows : List RosterRow)
    (records : List (List (String × String)))
    (h1 : readRosterCsv csv = Except.ok rows)
    (h2 : parseCsvRecords csv = Except.ok records) :
    (buildOutputPlan dir rows).length = rows.length ∧
    rows.length = records.length ∧
    ∀ i, i < rows.length →
      ∃ row record, rows[i]? = some row ∧ records[i]? = some record ∧
        (buildOutputPlan dir rows)[i]? =
          some { resultId := row.resultId,
                 path := pathJoin dir ("assessmentResult-" ++ row.resultId ++ ".xml") } ∧
        row.resultId = specResultId record := by
  have hred : readRosterCsv csv =
      (if records.length = 0 then Except.error "Roster CSV is empty."
       else rowsLoop records 0 []) := by
    unfold readRosterCsv
    rw [h2]
  rw [hred] at h1
  split at h1
  · exact absurd h1 (by simp)
  have hrows : rows = records.map mkRow := rowsLoop_ok records 0 [] rows h1
  subst hrows
  refine ⟨by simp [buildOutputPlan], by simp, ?_⟩
  intro i hi
  have hi' : i < records.length := by simpa using hi
  refine ⟨mkRow records[i], records[i], ?_, ?_, ?_, ?_⟩
  · simp [List.getElem?_eq_getElem hi']
  · exact List.getElem?_eq_getElem hi'
  · simp [buildOutputPlan, List.getElem?_eq_getElem hi']
  · rfl

def csv7 : String := "candidate_number,candidate_name,result_id\n1001,Alice,\n1002,Bob,R2\n"

def rows7 : List RosterRow :=
  [{ candidateNumber := "1001", candidateName := "Alice",
     candidateAccount := none, candidateId := none, resultId := "1001" },
   { candidateNumber := "1002", candidateName := "Bob",
     candidateAccount := none, candidateId := none, resultId := "R2" }]

def recs7 : List (List (String × String)) :=
  [[("candidate_number", "1001"), ("candidate_name", "Alice"), ("result_id", "")],
   [("candidate_number", "1002"), ("candidate_name", "Bob"), ("result_id", "R2")]]

/-- Witness for C7 at a concrete roster where one row defaults its
result id and the other supplies one. -/
theorem c7_witness :
    readRosterCsv csv7 = Except.ok rows7 ∧
    parseCsvRecords csv7 = Except.ok recs7 ∧
    ((buildOutputPlan "/o" rows7).length = rows7.length ∧
      rows7.length = recs7.length ∧
      ∀ i, i < rows7.length →
        ∃ row record, rows7[i]? = some row ∧ recs7[i]? = some record ∧
          (buildOutputPlan "/o" rows7)[i]? =
            some { resultId := row.resultId,
                   path := pathJoin "/o" ("assessmentResult-" ++ row.resultId ++ ".xml") } ∧
          row.resultId = specResultId record) :=
  ⟨rfl, rfl, c7_output_plan csv7 "/o" rows7 recs7 rfl rfl⟩

/-- C9: Every field of every row the roster reader returns is free of
leading and trailing whitespace — the reader trims every cell value, not
only `result_id`. -/
theorem c9_fields_trimmed (csv : String) (rows : List RosterRow)
    (h : readRosterCsv csv = Except.ok rows) :
    ∀ row ∈ rows,
      jsTrim row.candidateNumber = row.candidateNumber ∧
      jsTrim row.candidateName = row.candidateName ∧
      jsTrim row.resultId = row.resultId ∧
      (∀ a, row.candidateAccount = some a → jsTrim a = a) ∧
      (∀ b, row.candidateId = some b → jsTrim b = b) := by
  cases hrec : parseCsvRecords csv with
  | error e =>
    have : readRosterCsv csv = Except.error e := by
      unfold readRosterCsv
      rw [hrec]
    rw [this] at h
    exact absurd h (by simp)
  | ok records =>
    have hred : readRosterCsv csv =
        (if records.length = 0 then Except.error "Roster CSV is empty."
         else rowsLoop records 0 []) := by
      unfold readRosterCsv
      rw [hrec]
    rw [hred] at h
    split at h
    · exact absurd h (by simp)
    have hrows : rows = records.map mkRow := rowsLoop_ok records 0 [] rows h
    subst hrows
    intro row hrow
    obtain ⟨record, _hmem, rfl⟩ := List.mem_map.mp hrow
    refine ⟨jsTrim_idem _, jsTrim_idem _, ?_, ?_, ?_⟩
    · have hr : (mkRow record).resultId =
        (if fieldOf record "result_id" = "" then fieldOf record "candidate_number"
         else fieldOf record "result_id") := rfl
      rw [hr]
      by_cases hres : fieldOf record "result_id" = ""
      · rw [if_pos hres]; exact jsTrim_idem _
      · rw [if_neg hres]; exact jsTrim_idem _
    · intro a ha
      have hacc : (mkRow record).candidateAccount =
        (if fieldOf record "candidate_account" = "" then none
         else some (fieldOf record "candidate_account")) := rfl
      rw [hacc] at ha
      by_cases hc : fieldOf record "candidate_account" = ""
      · rw [if_pos hc] at ha; cases ha
      · rw [if_neg hc] at ha; cases ha; exact jsTrim_idem _
    · intro b hb
      have hid : (mkRow record).candidateId =
        (if fieldOf record "candidate_id" = "" then none
         else some (fieldOf record "candidate_id")) := rfl
      rw [hid] at hb
      by_cases hc : fieldOf record "candidate_id" = ""
      · rw [if_pos hc] at hb; cases hb
      · rw [if_neg hc] at hb; cases hb; exact jsTrim_idem _

def row9 : RosterRow :=
  { candidateNumber := "1001", candidateName := "Alice",
    candidateAccount := none, candidateId := none, resultId := "1001" }

/-- Witness for C9 on a roster whose raw cells carry surrounding blanks. -/
theorem c9_witness :
    readRosterCsv "candidate_number,candidate_name\n 1001 , Alice \n" =
      Except.ok [row9] ∧
    jsTrim row9.candidateNumber = row9.candidateNumber ∧
    jsTrim row9.candidateName = row9.candidateName :=
  ⟨rfl,
    (c9_fields_trimmed "candidate_number,candidate_name\n 1001 , Alice \n"
      [row9] rfl row9 (List.mem_singleton.mpr rfl)).1,
    (c9_fields_trimmed "candidate_number,candidate_name\n 1001 , Alice \n"
      [row9] rfl row9 (List.mem_singleton.mpr rfl)).2.1⟩

/-! ### C6 support: presence/absence of the datestamp attribute -/

theorem natStr_data (n : Nat) : (natStr n).data = natChars n := rfl

theorem escapeXml_data (v : String) : (escapeXml v).data = escapeL v.data := rfl

/-- The attribute-name pattern `datestamp`. -/
def dsWord : List Char := "datestamp".data

/-- The full rendered datestamp attribute ` datestamp="<escaped d>"`. -/
def dsChunk (d : String) : List Char :=
  " datestamp=\"".data ++ escapeL d.data ++ ['"']

/-- Values of a run that do not themselves contain the text `datestamp`
(the inputs that reach testResult/itemResult lines: the test-result
identifier and the item identifiers). -/
def cleanVals (tid : String) (ids : List String) : Bool :=
  !(occursB dsWord tid.data) && ids.all (fun id => !(occursB dsWord id.data))

theorem dsWord_ne : dsWord ≠ [] := by decide

theorem dsWord_amp : '&' ∉ dsWord := by decide

theorem dsWord_semi : ';' ∉ dsWord := by decide

theorem dsWord_quote : '"' ∉ dsWord := by decide

theorem dsWord_len : 6 < dsWord.length := by decide

theorem clean_escape {v : String} (hv : occursB dsWord v.data = false) :
    occursB dsWord (escapeXml v).data = false :=
  occursB_escapeL dsWord_amp dsWord_semi dsWord_len v.data hv

theorem occursB_dsWord_quote_cons (s : List Char) :
    occursB dsWord ('"' :: s) = occursB dsWord s := by
  show (isPre ('d' :: "atestamp".data) ('"' :: s) ||
    occursB ('d' :: "atestamp".data) s) = occursB ('d' :: "atestamp".data) s
  rw [isPre_cons_false (by decide)]
  simp

theorem occursB_dsWord_natChars (seq : Nat) :
    occursB dsWord (natChars seq) = false := by
  show occursB ('d' :: "atestamp".data) (natChars seq) = false
  exact occursB_head_not (d_not_mem_natChars seq)

/-- The datestamp attribute chunk occurs in the rendered `testResult` line
whenever the datestamp was supplied (truthy). -/
theorem chunk_in_testLine (tid : String) {ds : Option String} {d : String}
    (hds : optTruthy ds = some d) :
    occursB (dsChunk d) (mkTestLine tid ds).data = true := by
  have h : mkTestLine tid ds =
      "  <testResult identifier=\"" ++ escapeXml tid ++ "\" datestamp=\"" ++
        escapeXml d ++ "\" />" := by
    unfold mkTestLine
    rw [hds]
  rw [h]
  have hsplit : ("  <testResult identifier=\"" ++ escapeXml tid ++
      "\" datestamp=\"" ++ escapeXml d ++ "\" />").data =
      (("  <testResult identifier=\"" : String).data ++ (escapeXml tid).data ++ ['"'])
        ++ dsChunk d ++ (" />" : String).data := by
    simp only [String.data_append, escapeXml_data, dsChunk]
    simp [List.append_assoc]
  rw [hsplit]
  exact occursB_of_parts _ _ _

/-- The datestamp attribute chunk occurs in every rendered `itemResult`
line whenever the datestamp was supplied (truthy). -/
theorem chunk_in_itemLine (id : String) (seq : Nat) {ds : Option String}
    {d : String} (hds : optTruthy ds = some d) :
    occursB (dsChunk d) (mkItemLine id seq ds).data = true := by
  have h : mkItemLine id seq ds =
      "  <itemResult identifier=\"" ++ escapeXml id ++ "\" sequenceIndex=\"" ++
        natStr seq ++ "\" datestamp=\"" ++ escapeXml d ++
        "\" sessionStatus=\"final\" />" := by
    unfold mkItemLine
    rw [hds]
  rw [h]
  have hsplit : ("  <itemResult identifier=\"" ++ escapeXml id ++
      "\" sequenceIndex=\"" ++ natStr seq ++ "\" datestamp=\"" ++ escapeXml d ++
      "\" sessionStatus=\"final\" />").data =
      (("  <itemResult identifier=\"" : String).data ++ (escapeXml id).data ++
        ("\" sequenceIndex=\"" : String).data ++ natChars seq ++ ['"'])
        ++ dsChunk d ++ (" sessionStatus=\"final\" />" : String).data := by
    simp only [String.data_append, escapeXml_data, natStr_data, dsChunk]
    simp [List.append_assoc]
  rw [hsplit]
  exact occursB_of_parts _ _ _

/-- With the datestamp omitted, the text `datestamp` does not occur in the
rendered `testResult` line (given the identifier itself avoids it). -/
theorem no_ds_testLine (tid : String) {ds : Option String}
    (hds : optTruthy ds = none) (htid : occursB dsWord tid.data = false) :
    occursB dsWord (mkTestLine tid ds).data = false := by
  have h : mkTestLine tid ds =
      "  <testResult identifier=\"" ++ escapeXml tid ++ "\" />" := by
    unfold mkTestLine
    rw [hds]
  rw [h]
  have hdata : ("  <testResult identifier=\"" ++ escapeXml tid ++ "\" />").data =
      ("  <testResult identifier=" : String).data ++ ['"'] ++
        ((escapeXml tid).data ++ '"' :: (" />" : String).data) := by
    simp only [String.data_append, escapeXml_data]
    simp [List.append_assoc]
  have h2 : occursB dsWord ((escapeXml tid).data ++ '"' :: (" />" : String).data) = false := by
    rw [occursB_split_left dsWord_ne '"' dsWord_quote, clean_escape htid,
      occursB_dsWord_quote_cons]
    decide
  rw [hdata, occursB_split_right dsWord_ne '"' dsWord_quote, h2]
  decide

/-- With the datestamp omitted, the text `datestamp` does not occur in any
rendered `itemResult` line (given the item identifier avoids it). -/
theorem no_ds_itemLine (id : String) (seq : Nat) {ds : Option String}
    (hds : optTruthy ds = none) (hid : occursB dsWord id.data = false) :
    occursB dsWord (mkItemLine id seq ds).data = false := by
  have h : mkItemLine id seq ds =
      "  <itemResult identifier=\"" ++ escapeXml id ++ "\" sequenceIndex=\"" ++
        natStr seq ++ "\" sessionStatus=\"final\" />" := by
    unfold mkItemLine
    rw [hds]
  rw [h]
  have hdata : ("  <itemResult identifier=\"" ++ escapeXml id ++
      "\" sequenceIndex=\"" ++ natStr seq ++ "\" sessionStatus=\"final\" />").data =
      ("  <itemResult identifier=" : String).data ++ ['"'] ++
        ((escapeXml id).data ++ '"' ::
          ((" sequenceIndex=" : String).data ++ ['"'] ++
            (natChars seq ++ '"' :: (" sessionStatus=\"final\" />" : String).data))) := by
    simp only [String.data_append, escapeXml_data, natStr_data]
    simp [List.append_assoc]
  have hT : occursB dsWord
      (natChars seq ++ '"' :: (" sessionStatus=\"final\" />" : String).data) = false := by
    rw [occursB_split_left dsWord_ne '"' dsWord_quote, occursB_dsWord_natChars,
      occursB_dsWord_quote_cons]
    decide
  have hM : occursB dsWord
      ((" sequenceIndex=" : String).data ++ ['"'] ++
        (natChars seq ++ '"' :: (" sessionStatus=\"final\" />" : String).data)) = false := by
    rw [occursB_split_right dsWord_ne '"' dsWord_quote, hT]
    decide
  have hR : occursB dsWord
      ((escapeXml id).data ++ '"' ::
        ((" sequenceIndex=" : String).data ++ ['"'] ++
          (natChars seq ++ '"' :: (" sessionStatus=\"final\" />" : String).data))) = false := by
    rw [occursB_split_left dsWord_ne '"' dsWord_quote, clean_escape hid,
      occursB_dsWord_quote_cons, hM]
    decide
  rw [hdata, occursB_split_right dsWord_ne '"' dsWord_quote, hR]
  decide

theorem mem_itemResultLines {ds : Option String} :
    ∀ {ids : List String} {seq : Nat} {line : String},
      line ∈ itemResultLines ds seq ids →
      ∃ id n, id ∈ ids ∧ line = mkItemLine id n ds := by
  intro ids
  induction ids with
  | nil => intro seq line h; simp [itemResultLines] at h
  | cons a rest ih =>
    intro seq line h
    rw [show itemResultLines ds seq (a :: rest) =
      mkItemLine a seq ds :: itemResultLines ds (seq + 1) rest from rfl] at h
    rcases List.mem_cons.mp h with h | h
    · exact ⟨a, seq, List.mem_cons_self a rest, h⟩
    · obtain ⟨id, n, hid, hline⟩ := ih h
      exact ⟨id, n, List.mem_cons_of_mem _ hid, hline⟩

/-- Every line of a rendered document is one of the template lines. -/
theorem mem_buildResultLines {row : RosterRow} {tid : String} {ds : Option String}
    {ids : List String} {line : String}
    (h : line ∈ buildResultLines row tid ds ids) :
    line = xmlDeclLine ∨ line = rootLine ∨ line = contextLine row.candidateNumber ∨
    (∃ src ident, line = sessLine src ident) ∨ line = "  </context>" ∨
    line = mkTestLine tid ds ∨ (∃ id n, id ∈ ids ∧ line = mkItemLine id n ds) ∨
    line = "</assessmentResult>" := by
  unfold buildResultLines at h
  rcases List.mem_append.mp h with h1 | hF
  · rcases List.mem_append.mp h1 with h2 | hE
    · rcases List.mem_append.mp h2 with h3 | hD
      · rcases List.mem_append.mp h3 with h4 | hC
        · rcases List.mem_append.mp h4 with hA | hB
          · simp only [List.mem_cons, List.not_mem_nil, or_false] at hA
            rcases hA with h | h | h | h
            · exact Or.inl h
            · exact Or.inr (Or.inl h)
            · exact Or.inr (Or.inr (Or.inl h))
            · exact Or.inr (Or.inr (Or.inr (Or.inl ⟨_, _, h⟩)))
          · cases hcid : optTruthy row.candidateId with
            | none => rw [hcid] at hB; simp [optSessLine] at hB
            | some cid =>
              rw [hcid] at hB
              simp only [optSessLine, List.mem_singleton] at hB
              exact Or.inr (Or.inr (Or.inr (Or.inl ⟨_, _, hB⟩)))
        · cases hacc : optTruthy row.candidateAccount with
          | none => rw [hacc] at hC; simp [optSessLine] at hC
          | some acc =>
            rw [hacc] at hC
            simp only [optSessLine, List.mem_singleton] at hC
            exact Or.inr (Or.inr (Or.inr (Or.inl ⟨_, _, hC⟩)))
      · simp only [List.mem_cons, List.not_mem_nil, or_false] at hD
        rcases hD with h | h
        · exact Or.inr (Or.inr (Or.inr (Or.inr (Or.inl h))))
        · exact Or.inr (Or.inr (Or.inr (Or.inr (Or.inr (Or.inl h)))))
    · obtain ⟨id, n, hid, hline⟩ := mem_itemResultLines hE
      exact Or.inr (Or.inr (Or.inr (Or.inr (Or.inr (Or.inr (Or.inl ⟨id, n, hid, hline⟩))))))
  · simp only [List.mem_singleton] at hF
    exact Or.inr (Or.inr (Or.inr (Or.inr (Or.inr (Or.inr (Or.inr hF))))))

/-- C6: For every rendered document whose inputs do not themselves contain
the text `datestamp`: if a datestamp was supplied for the run (truthy),
every testResult and itemResult line carries the identical rendered
attribute ` datestamp="<escaped d>"`; if the datestamp was omitted, those
lines contain no occurrence of `datestamp` at all — the attribute is
absent, not empty.  The attribute value `escapeL d.data` inside `dsChunk d`
does not depend on the roster row, so it is identical across every output
file of the run. -/
theorem c6_datestamp_presence (row : RosterRow) (tid : String)
    (ds : Option String) (ids : List String)
    (hclean : cleanVals tid ids = true) :
    (∀ d, optTruthy ds = some d →
      ∀ line ∈ buildResultLines row tid ds ids,
        (isTestLine line || isItemLine line) = true →
        occursB (dsChunk d) line.data = true) ∧
    (optTruthy ds = none →
      ∀ line ∈ buildResultLines row tid ds ids,
        (isTestLine line || isItemLine line) = true →
        occursB dsWord line.data = false) := by
  simp only [cleanVals, Bool.and_eq_true, Bool.not_eq_true', List.all_eq_true] at hclean
  obtain ⟨htid, hids⟩ := hclean
  constructor
  · intro d hd line hline hrec
    rcases mem_buildResultLines hline with h | h | h | h | h | h | h | h
    · rw [h] at hrec
      simp [isTestLine_xmlDecl, isItemLine_xmlDecl] at hrec
    · rw [h] at hrec
      simp [isTestLine_root, isItemLine_root] at hrec
    · rw [h] at hrec
      simp [isTestLine_context, isItemLine_context] at hrec
    · obtain ⟨src, ident, h⟩ := h
      rw [h] at hrec
      simp [isTestLine_sess, isItemLine_sess] at hrec
    · rw [h] at hrec
      simp [isTestLine_contextClose, isItemLine_contextClose] at hrec
    · rw [h]
      exact chunk_in_testLine tid hd
    · obtain ⟨id, n, _hidmem, h⟩ := h
      rw [h]
      exact chunk_in_itemLine id n hd
    · rw [h] at hrec
      simp [isTestLine_docClose, isItemLine_docClose] at hrec
  · intro hd line hline hrec
    rcases mem_buildResultLines hline with h | h | h | h | h | h | h | h
    · rw [h] at hrec
      simp [isTestLine_xmlDecl, isItemLine_xmlDecl] at hrec
    · rw [h] at hrec
      simp [isTestLine_root, isItemLine_root] at hrec
    · rw [h] at hrec
      simp [isTestLine_context, isItemLine_context] at hrec
    · obtain ⟨src, ident, h⟩ := h
      rw [h] at hrec
      simp [isTestLine_sess, isItemLine_sess] at hrec
    · rw [h] at hrec
      simp [isTestLine_contextClose, isItemLine_contextClose] at hrec
    · rw [h]
      exact no_ds_testLine tid hd htid
    · obtain ⟨id, n, hidmem, h⟩ := h
      rw [h]
      exact no_ds_itemLine id n hd (hids id hidmem)
    · rw [h] at hrec
      simp [isTestLine_docClose, isItemLine_docClose] at hrec

/-- Witness for C6 at a concrete supplied datestamp, discharging the
clean-values hypothesis. -/
theorem c6_witness :
    cleanVals "WEB-EXAM-2026" ["item-001"] = true ∧
    ((∀ d, optTruthy (some "2026-01-27T10:00:00+09:00") = some d →
      ∀ line ∈ buildResultLines rowEx "WEB-EXAM-2026"
          (some "2026-01-27T10:00:00+09:00") ["item-001"],
        (isTestLine line || isItemLine line) = true →
        occursB (dsChunk d) line.data = true) ∧
    (optTruthy (some "2026-01-27T10:00:00+09:00") = none →
      ∀ line ∈ buildResultLines rowEx "WEB-EXAM-2026"
          (some "2026-01-27T10:00:00+09:00") ["item-001"],
        (isTestLine line || isItemLine line) = true →
        occursB dsWord line.data = false)) :=
  ⟨by decide,
    c6_datestamp_presence rowEx "WEB-EXAM-2026"
      (some "2026-01-27T10:00:00+09:00") ["item-001"] (by decide)⟩

/-- C1 (amended): a blank row among the data rows is silently skipped —
the reader's result is unchanged by inserting a blank line anywhere among
the lines — and only an input whose parsed record list is empty is
rejected, with the dedicated empty-roster error. -/
theorem c1_amended (csvA csvB : String)
    (h : ∃ pre post, csvLines csvA.data = pre ++ post ∧
      csvLines csvB.data = pre ++ [[]] ++ post) :
    readRosterCsv csvB = readRosterCsv csvA ∧
    (parseCsvRecords csvA = Except.ok [] →
      readRosterCsv csvA = Except.error "Roster CSV is empty.") := by
  obtain ⟨pre, post, hA, hB⟩ := h
  have hfilter : (csvLines csvB.data).filter (fun line => !line.isEmpty) =
      (csvLines csvA.data).filter (fun line => !line.isEmpty) := by
    rw [hA, hB]
    simp [List.filter_append, List.filter_cons]
  have hparse : parseCsvRecords csvB = parseCsvRecords csvA := by
    unfold parseCsvRecords
    rw [hfilter]
  constructor
  · unfold readRosterCsv
    rw [hparse]
  · intro hempty
    unfold readRosterCsv
    rw [hempty]
    rfl

/-- Witness for C1's amended claim: inserting a blank line between the two
data rows leaves the parsed roster unchanged, and the empty input is
rejected with the dedicated error. -/
theorem c1_amended_witness :
    readRosterCsv "candidate_number,candidate_name\n1001,Alice\n\n1002,Bob\n" =
      readRosterCsv "candidate_number,candidate_name\n1001,Alice\n1002,Bob\n" ∧
    readRosterCsv "" = Except.error "Roster CSV is empty." :=
  ⟨(c1_amended "candidate_number,candidate_name\n1001,Alice\n1002,Bob\n"
      "candidate_number,candidate_name\n1001,Alice\n\n1002,Bob\n"
      ⟨["candidate_number,candidate_name".data, "1001,Alice".data],
        ["1002,Bob".data, []], by decide, by decide⟩).1,
    (c1_amended "" "\n" ⟨[], [[]], by decide, by decide⟩).2 rfl⟩

/-- Witness for C10 on a concrete one-row plan and empty filesystem. -/
theorem c10_witness :
    (∀ o ∈ buildOutputPlan "/o" [rowEx],
      (rowByResult [rowEx] o.resultId).isSome = true) ∧
    (writeOutputsGo [rowEx] "t" none ["a"] { dirs := [], files := [] }
      (buildOutputPlan "/o" [rowEx])).fst = none :=
  c10_missing_row_unreachable { dirs := [], files := [] } "/o" [rowEx] "t" none ["a"]
